import Mathlib

/-!
Verification development for the kadom interpreter pipeline
(scanner → parser → evaluator, `src/lexer.rs`, `src/expr.rs`,
`src/parser.rs`, `src/environment.rs`, `src/interpreter.rs`,
`src/stmt.rs`).

Modelling conventions:
* The Rust scanner walks `source.as_bytes()` and casts each byte with
  `as char`.  We model the source as a `List Char`; for ASCII sources
  (all inputs appearing in the claims) the byte sequence and the
  character sequence coincide.  An out-of-bounds index (a Rust panic)
  is modelled by an explicit outcome constructor.
* Rust `f32`/`f64` values are modelled as exact fractions (`Frac`,
  an `Int` numerator over a `Nat` denominator) together with an
  explicit IEEE-754 round-to-nearest-even function `fpRound` applied
  exactly where the Rust code rounds (parsing a lexeme as `f64`,
  narrowing with `as f32` and every `f32` arithmetic operation).
  This models all finite, non-overflowing computations exactly;
  infinities and NaN (overflow, division by zero) are outside the
  model: division by a value equal to zero produces a denominator-0
  element about which nothing is claimed.
* Every loop is written as structural recursion on an explicit fuel
  counter so that all definitions evaluate inside the kernel; fuel
  bounds are chosen so that they can never be exhausted on the inputs
  the wrappers supply (proved where a claim needs it).
-/

namespace Kadom

/-! ### Exact fractions with IEEE rounding -/

/-- Exact fraction: `num / den`.  Denominators are positive for every
value built by the development; a denominator of `0` marks the
non-finite results (IEEE infinity/NaN) that the model does not cover. -/
structure Frac where
  num : Int
  den : Nat
deriving DecidableEq, Repr

/-- Fuelled Euclidean gcd (structural recursion so that the kernel can
evaluate it; fuel `b + 1` always suffices because the second argument
strictly decreases). -/
def gcdF : Nat → Nat → Nat → Nat
  | 0, a, _ => a
  | fuel+1, a, b => if b = 0 then a else gcdF fuel b (a % b)

def ngcd (a b : Nat) : Nat := gcdF (b + 1) a b

/-- Reduce a fraction to lowest terms. -/
def Frac.norm (q : Frac) : Frac :=
  let g := ngcd q.num.natAbs q.den
  if g = 0 then q else ⟨q.num / (g : Int), q.den / g⟩

/-- Value equality of fractions by cross multiplication.  This is the
model of Rust `==` on floats (exact for finite values). -/
def Frac.beq (x y : Frac) : Bool := x.num * (y.den : Int) = y.num * (x.den : Int)

/-- Value order by cross multiplication (denominators are positive for
all values built by the development). -/
def Frac.blt (x y : Frac) : Bool := x.num * (y.den : Int) < y.num * (x.den : Int)

def Frac.ble (x y : Frac) : Bool := x.num * (y.den : Int) ≤ y.num * (x.den : Int)

def Frac.addX (x y : Frac) : Frac :=
  ⟨x.num * (y.den : Int) + y.num * (x.den : Int), x.den * y.den⟩

def Frac.subX (x y : Frac) : Frac :=
  ⟨x.num * (y.den : Int) - y.num * (x.den : Int), x.den * y.den⟩

def Frac.mulX (x y : Frac) : Frac := ⟨x.num * y.num, x.den * y.den⟩

def Frac.divX (x y : Frac) : Frac :=
  if 0 ≤ y.num then ⟨x.num * (y.den : Int), x.den * y.num.toNat⟩
  else ⟨-(x.num * (y.den : Int)), x.den * (-y.num).toNat⟩

def Frac.neg (x : Frac) : Frac := ⟨-x.num, x.den⟩

def Frac.zero : Frac := ⟨0, 1⟩

/-- Fuelled base-2 logarithm on `Nat` (`natLog2F fuel n` = `⌊log₂ n⌋`
for `n ≥ 1` whenever `fuel` is large enough). -/
def natLog2F : Nat → Nat → Nat
  | 0, _ => 0
  | fuel+1, n => if n ≤ 1 then 0 else natLog2F fuel (n / 2) + 1

/-- For `0 < q < 1` (given as `n/d` with `n < d`), the least `k ≥ 1`
with `q·2^k ≥ 1`; exhausting the fuel returns the fuel count, which the
caller's exponent clamp makes harmless. -/
def invLog2F : Nat → Nat → Nat → Nat
  | 0, _, _ => 0
  | fuel+1, n, d => if d ≤ n then 0 else invLog2F fuel (n * 2) d + 1

/-- `⌊log₂ |q|⌋` for a positive fraction, fuelled. -/
def Frac.floorLog2 (q : Frac) : Int :=
  let n := q.num.natAbs
  if q.den ≤ n then (natLog2F (n + 1) (n / q.den) : Int)
  else -(invLog2F (q.den + 8) n q.den : Int)

/-- Round a non-negative fraction to the nearest integer, ties to even
(the IEEE default rounding). -/
def Frac.roundHalfEven (q : Frac) : Int :=
  let f : Int := q.num.fdiv (q.den : Int)
  let rem2 : Int := 2 * (q.num - f * (q.den : Int))
  if rem2 < (q.den : Int) then f
  else if (q.den : Int) < rem2 then f + 1
  else if f % 2 = 0 then f else f + 1

/-- Multiply a fraction by `2^k` (`k` may be negative). -/
def Frac.mulPow2 (q : Frac) (k : Int) : Frac :=
  if 0 ≤ k then ⟨q.num * (2 ^ k.toNat : Nat), q.den⟩
  else ⟨q.num, q.den * 2 ^ (-k).toNat⟩

/-- IEEE-754 binary round to nearest, ties to even, with `m` explicit
mantissa bits and minimum exponent `emin`: the model of rounding an
exact value into a binary floating-point format (exact for all finite,
non-overflowing results). -/
def fpRound (m : Nat) (emin : Int) (q : Frac) : Frac :=
  if q.num = 0 then ⟨0, 1⟩
  else
    let a : Frac := ⟨(q.num.natAbs : Int), q.den⟩
    let e : Int := max a.floorLog2 emin
    let shift : Int := (m : Int) - e
    let n : Int := (a.mulPow2 shift).roundHalfEven
    let mag : Frac :=
      if 0 ≤ shift then Frac.norm ⟨n, 2 ^ shift.toNat⟩
      else ⟨n * (2 ^ (-shift).toNat : Nat), 1⟩
    if q.num < 0 then ⟨-mag.num, mag.den⟩ else mag

/-- Rust `f64` rounding (52 explicit mantissa bits, `emin = -1022`). -/
def roundF64 (q : Frac) : Frac := fpRound 52 (-1022) q

/-- Rust `x as f32` narrowing (23 explicit mantissa bits,
`emin = -126`). -/
def roundF32 (q : Frac) : Frac := fpRound 23 (-126) q

/-- `f32` arithmetic: exact operation followed by rounding to binary32
(the IEEE semantics for finite, non-overflowing operands/results). -/
def f32add (x y : Frac) : Frac := roundF32 (x.addX y)
def f32sub (x y : Frac) : Frac := roundF32 (x.subX y)
def f32mul (x y : Frac) : Frac := roundF32 (x.mulX y)
def f32div (x y : Frac) : Frac := roundF32 (x.divX y)

/-! ### Token model (`src/lexer.rs`) -/

namespace Lexer

/-- `TokenType` from `src/lexer.rs`. -/
inductive TokenType
  | LeftParent | RightParent | LeftBrace | RightBrace | Comma | Dot
  | Minus | Plus | Semicolon | Slash | Star
  | Bang | BangEqual | Equal | EqualEqual
  | Greater | GreaterEqual | Less | LessEqual
  | Identifier | StringLiteral | Number
  | And | Class | Else | False | Fun | For | If | Nil | Or | Print
  | Return | Super | This | True | Var | While
  | Eof
deriving DecidableEq, Repr

/-- `LiteralValue` from `src/lexer.rs` (the scanned literal payload). -/
inductive LiteralValue
  | IntVal (i : Int)
  | FVal (f : Frac)
  | StringVal (s : String)
  | IdentifierVal (s : String)
deriving DecidableEq, Repr

/-- `Token` from `src/lexer.rs`. -/
structure Token where
  token_type : TokenType
  lexeme : String
  literal_option : Option LiteralValue
  line_number : Nat
deriving DecidableEq, Repr

/-- `is_alpha` from `src/lexer.rs`: the Rust code compares `c as u8`,
i.e. the code point truncated to its low byte. -/
def is_alpha (c : Char) : Bool :=
  (97 ≤ c.toNat % 256 ∧ c.toNat % 256 ≤ 122) ∨
  (65 ≤ c.toNat % 256 ∧ c.toNat % 256 ≤ 90) ∨ c = '_'

/-- `is_alphanumeric` from `src/lexer.rs`. -/
def is_alphanumeric (c : Char) : Bool := is_alpha c || c.isDigit

/-- The keyword table built in `Scanner::new`. -/
def keywords : List (String × TokenType) :=
  [("and", .And), ("class", .Class), ("else", .Else), ("false", .False),
   ("for", .For), ("fun", .Fun), ("if", .If), ("nil", .Nil),
   ("or", .Or), ("print", .Print), ("return", .Return), ("super", .Super),
   ("this", .This), ("true", .True), ("var", .Var), ("while", .While)]

/-- The mutable scanner fields other than the (immutable) source:
`tokens`, `start`, `current`, `line`. -/
structure ScanState where
  tokens : List Token
  start : Nat
  current : Nat
  line : Nat
deriving DecidableEq, Repr

/-- `Scanner::is_at_end`: `current >= source.len()`. -/
def isAtEnd (src : List Char) (cur : Nat) : Bool := src.length ≤ cur

/-- `Scanner::peek`: `'\0'` at end of input, the current character
otherwise (in bounds whenever not at end). -/
def peek (src : List Char) (cur : Nat) : Char := src.getD cur (Char.ofNat 0)

/-- `Scanner::peek_next`. -/
def peekNext (src : List Char) (cur : Nat) : Char :=
  if src.length ≤ cur + 1 then Char.ofNat 0 else src.getD (cur + 1) (Char.ofNat 0)

/-- `Scanner::match_char`. -/
def matchChar (src : List Char) (st : ScanState) (c : Char) : Bool × ScanState :=
  if isAtEnd src st.current ∨ src.getD st.current (Char.ofNat 0) ≠ c then (false, st)
  else (true, { st with current := st.current + 1 })

/-- The source slice `source[a..b]` as a string. -/
def sliceStr (src : List Char) (a b : Nat) : String :=
  String.mk ((src.drop a).take (b - a))

/-- `Scanner::add_token`: push a token whose lexeme is
`source[start..current]`. -/
def addToken (src : List Char) (st : ScanState) (tt : TokenType)
    (lit : Option LiteralValue) : ScanState :=
  { st with tokens := st.tokens ++ [⟨tt, sliceStr src st.start st.current, lit, st.line⟩] }

/-- Outcome of one `scan_token` call: `Ok(())` or `Err(msg)` with the
mutated scanner, or an out-of-bounds source read (a Rust index panic).
`fuelOut` is the fuel-exhaustion marker of the model, unreachable for
the fuel the wrappers supply. -/
inductive TokRes
  | ok (st : ScanState)
  | err (st : ScanState) (msg : String)
  | panic
  | fuelOut
deriving DecidableEq, Repr

/-- The loop inside the `'/'` arm of `scan_token`:
`loop { if peek == '\n' || !is_at_end { break; } advance(); }`.
Note the `!is_at_end()` (the Rust code's condition, verbatim): the
loop breaks immediately unless the scanner is already at end of input,
in which case `advance` reads out of bounds. -/
def lineCommentLoop (src : List Char) : Nat → ScanState → TokRes
  | 0, _ => .fuelOut
  | fuel+1, st =>
    if peek src st.current = '\n' ∨ ¬ isAtEnd src st.current then .ok st
    else
      match src.get? st.current with
      | none => .panic
      | some _ => lineCommentLoop src fuel { st with current := st.current + 1 }

/-- The consuming loop of `Scanner::string_literal`: advance through
the string body, counting embedded newlines, until the closing quote
or end of input. -/
def stringLoop (src : List Char) : Nat → ScanState → TokRes
  | 0, _ => .fuelOut
  | fuel+1, st =>
    if peek src st.current = '"' ∨ isAtEnd src st.current then .ok st
    else
      match src.get? st.current with
      | none => .panic
      | some _ =>
        stringLoop src fuel
          ⟨st.tokens, st.start, st.current + 1,
           if peek src st.current = '\n' then st.line + 1 else st.line⟩

/-- `Scanner::string_literal` (entered after consuming the opening
quote). -/
def string_literal (src : List Char) (st : ScanState) : TokRes :=
  match stringLoop src (src.length + 1) st with
  | .ok st =>
    if isAtEnd src st.current then
      .err st ("unterminated string lol :/ on line " ++ toString st.line)
    else
      match src.get? st.current with
      | none => .panic
      | some _ =>
        let st := { st with current := st.current + 1 }
        let value := sliceStr src (st.start + 1) (st.current - 1)
        .ok (addToken src st .StringLiteral (some (.StringVal value)))
  | r => r

/-- `while self.peek().is_ascii_digit() { self.advance(); }` -/
def digitLoop (src : List Char) : Nat → ScanState → TokRes
  | 0, _ => .fuelOut
  | fuel+1, st =>
    if (peek src st.current).isDigit then
      match src.get? st.current with
      | none => .panic
      | some _ => digitLoop src fuel { st with current := st.current + 1 }
    else .ok st

/-- Exact value of a digit run. -/
def digitsVal (cs : List Char) : Nat :=
  cs.foldl (fun a c => a * 10 + (c.toNat - 48)) 0

/-- The model of `str::parse::<f64>` restricted to the lexeme shapes
the scanner produces (`digits` or `digits.digits`): the exact decimal
value rounded to binary64.  Other shapes yield `none` (the Rust parse
error branch). -/
def parseLexemeF64 (cs : List Char) : Option Frac :=
  match cs.span (·.isDigit) with
  | (ds, []) => if ds = [] then none else some (roundF64 ⟨(digitsVal ds : Int), 1⟩)
  | (ds, c :: fs) =>
    if c = '.' ∧ ds ≠ [] ∧ fs ≠ [] ∧ fs.all (·.isDigit) then
      some (roundF64 ⟨(digitsVal ds * 10 ^ fs.length + digitsVal fs : Int), 10 ^ fs.length⟩)
    else none

/-- `Scanner::number`. -/
def number (src : List Char) (st : ScanState) : TokRes :=
  match digitLoop src (src.length + 1) st with
  | .ok st =>
    if peek src st.current = '.' ∧ (peekNext src st.current).isDigit then
      match src.get? st.current with
      | none => .panic
      | some _ =>
        match digitLoop src (src.length + 1) { st with current := st.current + 1 } with
        | .ok st =>
          match parseLexemeF64 ((src.drop st.start).take (st.current - st.start)) with
          | some v => .ok (addToken src st .Number (some (.FVal v)))
          | none => .err st "Could not parse as f64"
        | r => r
    else
      match parseLexemeF64 ((src.drop st.start).take (st.current - st.start)) with
      | some v => .ok (addToken src st .Number (some (.FVal v)))
      | none => .err st "Could not parse as f64"
  | r => r

/-- `while is_alphanumeric(self.peek()) { self.advance(); }` -/
def identLoop (src : List Char) : Nat → ScanState → TokRes
  | 0, _ => .fuelOut
  | fuel+1, st =>
    if is_alphanumeric (peek src st.current) then
      match src.get? st.current with
      | none => .panic
      | some _ => identLoop src fuel { st with current := st.current + 1 }
    else .ok st

/-- `Scanner::identifier`. -/
def identifier (src : List Char) (st : ScanState) : TokRes :=
  match identLoop src (src.length + 1) st with
  | .ok st =>
    let text := sliceStr src st.start st.current
    let tt := ((keywords.lookup text).getD .Identifier)
    .ok (addToken src st tt none)
  | r => r

/-- `Scanner::scan_token`.  The initial `advance` reads the character
at `current` (`.panic` if out of bounds — it never is, because the
caller's loop guard ensures `current < source.len()`). -/
def scan_token (src : List Char) (st : ScanState) : TokRes :=
  match src.get? st.current with
  | none => .panic
  | some c =>
    let st := { st with current := st.current + 1 }
    if c = '(' then .ok (addToken src st .LeftParent none)
    else if c = ')' then .ok (addToken src st .RightParent none)
    else if c = '{' then .ok (addToken src st .LeftBrace none)
    else if c = '}' then .ok (addToken src st .RightBrace none)
    else if c = ',' then .ok (addToken src st .Comma none)
    else if c = '.' then .ok (addToken src st .Dot none)
    else if c = '-' then .ok (addToken src st .Minus none)
    else if c = '+' then .ok (addToken src st .Plus none)
    else if c = ';' then .ok (addToken src st .Semicolon none)
    else if c = '*' then .ok (addToken src st .Star none)
    else if c = '=' then
      let (m, st) := matchChar src st '='
      .ok (addToken src st (if m then .EqualEqual else .Equal) none)
    else if c = '!' then
      let (m, st) := matchChar src st '='
      .ok (addToken src st (if m then .BangEqual else .Bang) none)
    else if c = '<' then
      let (m, st) := matchChar src st '='
      .ok (addToken src st (if m then .LessEqual else .Less) none)
    else if c = '>' then
      let (m, st) := matchChar src st '='
      .ok (addToken src st (if m then .GreaterEqual else .Greater) none)
    else if c = '/' then
      let (m, st) := matchChar src st '/'
      if m then
        match lineCommentLoop src (src.length + 1) st with
        | .ok st => .ok (addToken src st .Slash none)
        | r => r
      else .ok (addToken src st .Slash none)
    else if c = ' ' ∨ c = '\r' ∨ c = '\t' then .ok st
    else if c = '\n' then .ok { st with line := st.line + 1 }
    else if c = '"' then string_literal src st
    else if c.isDigit then number src st
    else if is_alpha c then identifier src st
    else .err st ("Oopsie, character not recognised: " ++ toString c ++
      " at line " ++ toString st.line)

/-- Result of the whole `scan_tokens` call. -/
inductive ScanResult
  | ok (tokens : List Token)
  | err (msg : String)
  | panic
  | fuelOut
deriving DecidableEq, Repr

/-- Outcome of the scanning loop before the epilogue. -/
inductive ScanFinal
  | done (st : ScanState) (errors : List String)
  | panic
  | fuelOut
deriving DecidableEq, Repr

/-- The `while !self.is_at_end()` loop of `Scanner::scan_tokens`,
collecting error messages and continuing. -/
def scanLoop (src : List Char) : Nat → ScanState → List String → ScanFinal
  | 0, _, _ => .fuelOut
  | fuel+1, st, errors =>
    if isAtEnd src st.current then .done st errors
    else
      let st := { st with start := st.current }
      match scan_token src st with
      | .ok st => scanLoop src fuel st errors
      | .err st msg => scanLoop src fuel st (errors ++ [msg])
      | .panic => .panic
      | .fuelOut => .fuelOut

/-- `Scanner::scan_tokens`: run the scanning loop from the initial
scanner state, append the `Eof` token, and fail with the newline-joined
error list when any error was collected. -/
def scan_tokens (src : List Char) : ScanResult :=
  match scanLoop src (src.length + 1) ⟨[], 0, 0, 1⟩ [] with
  | .done st errors =>
    let toks := st.tokens ++ [⟨.Eof, "", none, st.line⟩]
    if errors = [] then .ok toks
    else .err (String.join (errors.map (· ++ "\n")))
  | .panic => .panic
  | .fuelOut => .fuelOut

end Lexer

/-- Scan a Lean string (exactly the Rust behaviour for ASCII sources,
whose UTF-8 bytes are their characters). -/
def scanString (s : String) : Lexer.ScanResult := Lexer.scan_tokens s.toList

/-! ### Runtime values, AST and evaluator (`src/expr.rs`,
`src/environment.rs`) -/

/-- `unwrap_as_f32` from `src/expr.rs`: both payload arms are narrowed
with `as f32`. -/
def unwrap_as_f32 (lit : Option Lexer.LiteralValue) : Except String Frac :=
  match lit with
  | some (.IntVal s) => .ok (roundF32 ⟨s, 1⟩)
  | some (.FVal s) => .ok (roundF32 s)
  | _ => .error "Could not unwrap as f32"

/-- `unwrap_as_string` from `src/expr.rs`. -/
def unwrap_as_string (lit : Option Lexer.LiteralValue) : Except String String :=
  match lit with
  | some (.StringVal s) => .ok s
  | some (.IdentifierVal s) => .ok s
  | _ => .error "Could not unwrap as string"

/-- `LiteralValue` from `src/expr.rs` — the runtime value type.  Its
number payload is a Rust `f32` (not an `f64`), modelled by `Frac`; the
`String` variant is named `Str` here because `String` is the Lean
string type. -/
inductive LiteralValue
  | Number (x : Frac)
  | Str (s : String)
  | True
  | False
  | Nil
deriving DecidableEq, Repr

/-- Derived `PartialEq` of `LiteralValue`: structural, with `f32`
payloads compared by value. -/
def LiteralValue.beq (a b : LiteralValue) : Bool :=
  match a, b with
  | .Number x, .Number y => x.beq y
  | .Str s, .Str t => s = t
  | .True, .True => true
  | .False, .False => true
  | .Nil, .Nil => true
  | _, _ => false

/-- Constructor tag of a runtime value (its kind). -/
def LiteralValue.kindOf : LiteralValue → Nat
  | .Number _ => 0
  | .Str _ => 1
  | .True => 2
  | .False => 3
  | .Nil => 4

/-- Rendering of a number, modelling Rust's `f32` `Display`.  Exact
for integer-valued numbers (the only ones rendered anywhere in this
development); a non-integral value is shown as `num/den`, where Rust
would print its shortest round-tripping decimal form. -/
def numToString (q : Frac) : String :=
  let q := q.norm
  if q.den = 1 then toString q.num
  else toString q.num ++ "/" ++ toString q.den

/-- The `Display` impl of `LiteralValue` in `src/expr.rs`. -/
def LiteralValue.display : LiteralValue → String
  | .Number x => numToString x
  | .Str x => x
  | .True => "true"
  | .False => "false"
  | .Nil => "nil"

/-- Debug (`{:?}`) rendering of a runtime value, used only inside
runtime error messages. -/
def LiteralValue.debugStr : LiteralValue → String
  | .Number x => "Number(" ++ numToString x ++ ")"
  | .Str x => "String(\"" ++ x ++ "\")"
  | .True => "True"
  | .False => "False"
  | .Nil => "Nil"

/-- Debug (`{:?}`) rendering of a token type, used only inside runtime
error messages. -/
def tokenTypeDebug (t : Lexer.TokenType) : String :=
  match t with
  | .LeftParent => "LeftParent" | .RightParent => "RightParent"
  | .LeftBrace => "LeftBrace" | .RightBrace => "RightBrace"
  | .Comma => "Comma" | .Dot => "Dot" | .Minus => "Minus" | .Plus => "Plus"
  | .Semicolon => "Semicolon" | .Slash => "Slash" | .Star => "Star"
  | .Bang => "Bang" | .BangEqual => "BangEqual" | .Equal => "Equal"
  | .EqualEqual => "EqualEqual" | .Greater => "Greater"
  | .GreaterEqual => "GreaterEqual" | .Less => "Less" | .LessEqual => "LessEqual"
  | .Identifier => "Identifier" | .StringLiteral => "StringLiteral"
  | .Number => "Number" | .And => "And" | .Class => "Class" | .Else => "Else"
  | .False => "False" | .Fun => "Fun" | .For => "For" | .If => "If"
  | .Nil => "Nil" | .Or => "Or" | .Print => "Print" | .Return => "Return"
  | .Super => "Super" | .This => "This" | .True => "True" | .Var => "Var"
  | .While => "While" | .Eof => "Eof"

/-- `LiteralValue::from_token` from `src/expr.rs`.  The Rust catch-all
arm is a `panic!`; it is modelled as an error (distinguishable by its
message) — the parser only calls `from_token` after matching exactly
the literal-producing token kinds, so the arm is unreachable there. -/
def LiteralValue.from_token (token : Lexer.Token) : Except String LiteralValue :=
  match token.token_type with
  | .Number => (unwrap_as_f32 token.literal_option).map .Number
  | .StringLiteral => (unwrap_as_string token.literal_option).map .Str
  | .False => .ok .False
  | .True => .ok .True
  | .Nil => .ok .Nil
  | _ => .error "Could not convert to LiteralValue"

/-- `LiteralValue::not` from `src/expr.rs` (truthiness negation):
`False`/`Nil` are truthy-negated to `True`; a number is compared with
`0 as f32`; a string is tested for emptiness; `True` becomes `False`. -/
def LiteralValue.not : LiteralValue → LiteralValue
  | .False => .True
  | .Nil => .True
  | .Number x => if x.beq Frac.zero then .True else .False
  | .Str s => if s = "" then .True else .False
  | .True => .False

/-- `LiteralValue::from_bool`. -/
def LiteralValue.from_bool (b : Bool) : LiteralValue :=
  match b with
  | true => .True
  | false => .False

/-- `Expr` from `src/expr.rs`. -/
inductive Expr
  | Binary (left : Expr) (operator : Lexer.Token) (right : Expr)
  | Grouping (expression : Expr)
  | Literal (value : LiteralValue)
  | Unary (operator : Lexer.Token) (right : Expr)
  | Variable (name : Lexer.Token)
deriving DecidableEq, Repr

/-- The `Display` impl of `Expr` in `src/expr.rs` (the canonical
parenthesized form). -/
def Expr.display : Expr → String
  | .Binary l op r => "(" ++ op.lexeme ++ " " ++ l.display ++ " " ++ r.display ++ ")"
  | .Grouping e => "(group " ++ e.display ++ ")"
  | .Literal v => v.display
  | .Unary op r => "(" ++ op.lexeme ++ " " ++ r.display ++ ")"
  | .Variable name => "var " ++ name.lexeme

/-- `Environment` from `src/environment.rs`: a single flat map from
variable name to runtime value (the `HashMap` modelled as a function). -/
def Environment : Type := String → Option LiteralValue

/-- `Environment::new`. -/
def Environment.new : Environment := fun _ => none

/-- `Environment::define`: insert-or-overwrite, never fails. -/
def Environment.define (env : Environment) (name : String) (value : LiteralValue) :
    Environment :=
  fun n => if n = name then some value else env n

/-- `Environment::get`: the stored value, or an undeclared-variable
error naming the variable. -/
def Environment.get (env : Environment) (name : String) : Except String LiteralValue :=
  match env name with
  | some value => .ok value
  | none => .error ("Variable " ++ name ++ " not declared yet!")

/-- `Expr::evaluate` from `src/expr.rs`.  The match arms appear in the
source order; in particular the `==`/`!=` arms cover every operand
pair before the type-error arms.  `f32` arithmetic is the exact
operation followed by binary32 rounding. -/
def Expr.evaluate (e : Expr) (environment : Environment) : Except String LiteralValue :=
  match e with
  | .Literal value => .ok value
  | .Grouping expression => expression.evaluate environment
  | .Unary operator right => do
    let evaluateRight ← right.evaluate environment
    match evaluateRight, operator.token_type with
    | .Number x, .Minus => .ok (.Number x.neg)
    | nonNumber, .Minus =>
      .error ("Negation not implemented for " ++ nonNumber.debugStr)
    | any, .Bang => .ok any.not
    | _, _ => .error "Unreachable"
  | .Binary left operator right => do
    let evaluateLeft ← left.evaluate environment
    let evaluateRight ← right.evaluate environment
    match evaluateLeft, operator.token_type, evaluateRight with
    | .Number x, .Minus, .Number y => .ok (.Number (f32sub x y))
    | .Number x, .Slash, .Number y => .ok (.Number (f32div x y))
    | .Number x, .Star, .Number y => .ok (.Number (f32mul x y))
    | .Number x, .Plus, .Number y => .ok (.Number (f32add x y))
    | .Str str1, .Plus, .Str str2 => .ok (.Str (str1 ++ str2))
    | .Number x, .Greater, .Number y => .ok (.from_bool (y.blt x))
    | .Number x, .GreaterEqual, .Number y => .ok (.from_bool (y.ble x))
    | .Number x, .Less, .Number y => .ok (.from_bool (x.blt y))
    | .Number x, .LessEqual, .Number y => .ok (.from_bool (x.ble y))
    | .Str x, .Greater, .Str y => .ok (.from_bool (decide (y < x)))
    | .Str x, .GreaterEqual, .Str y => .ok (.from_bool (decide (y ≤ x)))
    | .Str x, .Less, .Str y => .ok (.from_bool (decide (x < y)))
    | .Str x, .LessEqual, .Str y => .ok (.from_bool (decide (x ≤ y)))
    | x, .EqualEqual, y => .ok (.from_bool (x.beq y))
    | x, .BangEqual, y => .ok (.from_bool (Bool.not (x.beq y)))
    | .Str _, oper, .Number _ =>
      .error ("Mismatched types for " ++ tokenTypeDebug oper ++ ": String and Number")
    | .Number _, oper, .Str _ =>
      .error ("Mismatched types for " ++ tokenTypeDebug oper ++ ": Number and String")
    | x, oper, y =>
      .error (tokenTypeDebug oper ++ " cannot be evaluated for " ++
        x.debugStr ++ " and " ++ y.debugStr)
  | .Variable name => environment.get name.lexeme

/-- `Stmt` from `src/stmt.rs`. -/
inductive Stmt
  | Expression (expression : Expr)
  | Print (expression : Expr)
  | Var (name : Lexer.Token) (initialiser : Expr)
deriving DecidableEq, Repr

/-! ### Parser (`src/parser.rs`)

The parser state is the cursor `current` together with `out`, the text
written to standard output while parsing (the `println!` inside
`Parser::expression_statement` writes to it).  The token list indexing
in `peek`/`previous` is unchecked in Rust; it is modelled with a
default `Eof` token, and stays in bounds for every `Eof`-terminated
token list the scanner produces. -/

/-- Mutable parser fields apart from the token buffer, plus the text
the parser itself printed. -/
structure ParserState where
  current : Nat
  out : List String
deriving DecidableEq, Repr

/-- Default token standing for the unchecked out-of-bounds read. -/
def defaultToken : Lexer.Token := ⟨.Eof, "", none, 0⟩

/-- `Parser::peek`. -/
def peekT (toks : List Lexer.Token) (cur : Nat) : Lexer.Token := toks.getD cur defaultToken

/-- `Parser::previous`. -/
def previousT (toks : List Lexer.Token) (cur : Nat) : Lexer.Token :=
  toks.getD (cur - 1) defaultToken

/-- `Parser::is_at_end`. -/
def isAtEndP (toks : List Lexer.Token) (cur : Nat) : Bool :=
  (peekT toks cur).token_type = .Eof

/-- `Parser::check`. -/
def checkT (toks : List Lexer.Token) (cur : Nat) (tt : Lexer.TokenType) : Bool :=
  if isAtEndP toks cur then false else (peekT toks cur).token_type = tt

/-- `Parser::advance`: increment the cursor unless at end, then return
`previous()`. -/
def advanceP (toks : List Lexer.Token) (st : ParserState) : Lexer.Token × ParserState :=
  let cur := if isAtEndP toks st.current then st.current else st.current + 1
  (previousT toks cur, { st with current := cur })

/-- `Parser::match_token`: advance over the first matching kind. -/
def matchTokenP (toks : List Lexer.Token) (st : ParserState)
    (types : List Lexer.TokenType) : Bool × ParserState :=
  if types.any (checkT toks st.current) then (true, { st with current := st.current + 1 })
  else (false, st)

/-- `Parser::consume`. -/
def consumeT (toks : List Lexer.Token) (st : ParserState) (tt : Lexer.TokenType)
    (msg : String) : Except String Lexer.Token × ParserState :=
  if checkT toks st.current tt then
    let (t, st) := advanceP toks st
    (.ok t, st)
  else (.error msg, st)

/-- Control point of the expression grammar: one constructor per Rust
parser function, plus a `…L` constructor for the while-loop of each
left-associative binary level, carrying the accumulated left operand.
A single level tag keeps the whole expression parser one structural
recursion on fuel. -/
inductive PLevel
  | equality | equalityL (acc : Expr)
  | comparison | comparisonL (acc : Expr)
  | term | termL (acc : Expr)
  | factor | factorL (acc : Expr)
  | unary | primary

/-- The recursive-descent expression parser
(`Parser::{expression, equality, comparison, term, factor, unary,
primary}`), one fuel-indexed function over the level tag.  The fuel
the wrapper supplies can never run out (each nesting level either
consumes a token or moves a fixed number of steps down the precedence
chain). -/
def parseE (toks : List Lexer.Token) :
    Nat → PLevel → ParserState → Except String Expr × ParserState
  | 0, _, st => (.error "parser fuel exhausted", st)
  | fuel+1, lv, st =>
    match lv with
    | .equality =>
      match parseE toks fuel .comparison st with
      | (.ok e, st) => parseE toks fuel (.equalityL e) st
      | r => r
    | .equalityL e =>
      let (m, st') := matchTokenP toks st [.BangEqual, .EqualEqual]
      if m then
        let operator := previousT toks st'.current
        match parseE toks fuel .comparison st' with
        | (.ok rhs, st') => parseE toks fuel (.equalityL (.Binary e operator rhs)) st'
        | r => r
      else (.ok e, st')
    | .comparison =>
      match parseE toks fuel .term st with
      | (.ok e, st) => parseE toks fuel (.comparisonL e) st
      | r => r
    | .comparisonL e =>
      let (m, st') := matchTokenP toks st [.Greater, .GreaterEqual, .Less, .LessEqual]
      if m then
        let operator := previousT toks st'.current
        match parseE toks fuel .term st' with
        | (.ok rhs, st') => parseE toks fuel (.comparisonL (.Binary e operator rhs)) st'
        | r => r
      else (.ok e, st')
    | .term =>
      match parseE toks fuel .factor st with
      | (.ok e, st) => parseE toks fuel (.termL e) st
      | r => r
    | .termL e =>
      let (m, st') := matchTokenP toks st [.Plus, .Minus]
      if m then
        let operator := previousT toks st'.current
        match parseE toks fuel .factor st' with
        | (.ok rhs, st') => parseE toks fuel (.termL (.Binary e operator rhs)) st'
        | r => r
      else (.ok e, st')
    | .factor =>
      match parseE toks fuel .unary st with
      | (.ok e, st) => parseE toks fuel (.factorL e) st
      | r => r
    | .factorL e =>
      let (m, st') := matchTokenP toks st [.Star, .Slash]
      if m then
        let operator := previousT toks st'.current
        match parseE toks fuel .unary st' with
        | (.ok rhs, st') => parseE toks fuel (.factorL (.Binary e operator rhs)) st'
        | r => r
      else (.ok e, st')
    | .unary =>
      let (m, st') := matchTokenP toks st [.Bang, .Minus]
      if m then
        let operator := previousT toks st'.current
        match parseE toks fuel .unary st' with
        | (.ok rhs, st') => (.ok (.Unary operator rhs), st')
        | r => r
      else parseE toks fuel .primary st'
    | .primary =>
      let (m, st) := matchTokenP toks st [.LeftParent]
      if m then
        match parseE toks fuel .equality st with
        | (.ok e, st) =>
          match consumeT toks st .RightParent "Expected ')' here" with
          | (.ok _, st) => (.ok (.Grouping e), st)
          | (.error msg, st) => (.error msg, st)
        | r => r
      else
        let (m, st) := matchTokenP toks st [.Identifier]
        if m then (.ok (.Variable (previousT toks st.current)), st)
        else
          let (m, st) := matchTokenP toks st [.False, .True, .StringLiteral, .Number, .Nil]
          if m then
            match LiteralValue.from_token (previousT toks st.current) with
            | .ok v => (.ok (.Literal v), st)
            | .error msg => (.error msg, st)
          else
            (.error ("Expected expression on line " ++
              toString (peekT toks st.current).line_number), st)

/-- Fuel that `parseE` can never exhaust on the given buffer. -/
def parserFuel (toks : List Lexer.Token) : Nat := 16 * (toks.length + 1) + 16

/-- `Parser::expression`. -/
def expressionP (toks : List Lexer.Token) (st : ParserState) :
    Except String Expr × ParserState :=
  parseE toks (parserFuel toks) .equality st

/-- `Parser::var_declaration`. -/
def var_declaration (toks : List Lexer.Token) (st : ParserState) :
    Except String Stmt × ParserState :=
  match consumeT toks st .Identifier "Expected variable name" with
  | (.ok name, st) =>
    let (m, st) := matchTokenP toks st [.Equal]
    if m then
      match expressionP toks st with
      | (.ok initialiser, st) =>
        match consumeT toks st .Semicolon "Expected ';' after statement" with
        | (.ok _, st) => (.ok (.Var name initialiser), st)
        | (.error msg, st) => (.error msg, st)
      | (.error msg, st) => (.error msg, st)
    else
      match consumeT toks st .Semicolon "Expected ';' after statement" with
      | (.ok _, st) => (.ok (.Var name (.Literal .Nil)), st)
      | (.error msg, st) => (.error msg, st)
  | (.error msg, st) => (.error msg, st)

/-- `Parser::print_statement`. -/
def print_statement (toks : List Lexer.Token) (st : ParserState) :
    Except String Stmt × ParserState :=
  match expressionP toks st with
  | (.ok expression, st) =>
    match consumeT toks st .Semicolon "Expected ';' after statement" with
    | (.ok _, st) => (.ok (.Print expression), st)
    | (.error msg, st) => (.error msg, st)
  | (.error msg, st) => (.error msg, st)

/-- `Parser::expression_statement`.  The `println!("{expression}")` in
the source writes the parsed expression's canonical form to standard
output before the `;` is consumed; it is modelled by appending to the
parser state's `out`. -/
def expression_statement (toks : List Lexer.Token) (st : ParserState) :
    Except String Stmt × ParserState :=
  match expressionP toks st with
  | (.ok expression, st) =>
    let st := { st with out := st.out ++ [expression.display] }
    match consumeT toks st .Semicolon "Expected ';' after statement" with
    | (.ok _, st) => (.ok (.Expression expression), st)
    | (.error msg, st) => (.error msg, st)
  | (.error msg, st) => (.error msg, st)

/-- `Parser::statement`. -/
def statement (toks : List Lexer.Token) (st : ParserState) :
    Except String Stmt × ParserState :=
  let (m, st) := matchTokenP toks st [.Print]
  if m then print_statement toks st else expression_statement toks st

/-- `Parser::declaration`. -/
def declaration (toks : List Lexer.Token) (st : ParserState) :
    Except String Stmt × ParserState :=
  let (m, st) := matchTokenP toks st [.Var]
  if m then var_declaration toks st else statement toks st

/-- The token kinds of the `Class | Fun | Var | For | If | While |
Print | Return` arm in `Parser::synchronise`. -/
def stmtStart (t : Lexer.TokenType) : Bool :=
  match t with
  | .Class | .Fun | .Var | .For | .If | .While | .Print | .Return => true
  | _ => false

/-- The `while !self.is_at_end()` loop of `Parser::synchronise`: stop
when `previous()` — the token just consumed — is a `;` or a
statement-starting keyword, otherwise advance.  Fuel `length + 1`
always suffices (the cursor increases while below the `Eof`). -/
def syncLoop (toks : List Lexer.Token) : Nat → Nat → Nat
  | 0, cur => cur
  | fuel+1, cur =>
    if isAtEndP toks cur then cur
    else if (previousT toks cur).token_type = .Semicolon then cur
    else if stmtStart (previousT toks cur).token_type then cur
    else syncLoop toks fuel (cur + 1)

/-- `Parser::synchronise`: one unconditional `advance`, then the loop. -/
def synchronise (toks : List Lexer.Token) (st : ParserState) : ParserState :=
  let (_, st) := advanceP toks st
  { st with current := syncLoop toks (toks.length + 1) st.current }

/-- The `while !self.is_at_end()` loop of `Parser::parse`, collecting
statements and error messages (with panic-mode synchronisation after
each error). -/
def parseLoop (toks : List Lexer.Token) :
    Nat → ParserState → List Stmt → List String →
    List Stmt × List String × ParserState
  | 0, st, stmts, errors => (stmts, errors, st)
  | fuel+1, st, stmts, errors =>
    if isAtEndP toks st.current then (stmts, errors, st)
    else
      match declaration toks st with
      | (.ok s, st) => parseLoop toks fuel st (stmts ++ [s]) errors
      | (.error msg, st) =>
        let st := synchronise toks st
        parseLoop toks fuel st stmts (errors ++ [msg])

/-- The error list `Parser::parse` accumulates. -/
def parseErrors (toks : List Lexer.Token) : List String :=
  (parseLoop toks (toks.length + 2) ⟨0, []⟩ [] []).2.1

/-- `Parser::parse`: the statement list on zero errors, otherwise the
newline-joined error report; paired with the final parser state (whose
`out` is what parsing printed). -/
def parse (toks : List Lexer.Token) : Except String (List Stmt) × ParserState :=
  let (stmts, errors, st) := parseLoop toks (toks.length + 2) ⟨0, []⟩ [] []
  (if errors = [] then .ok stmts else .error (String.intercalate "\n" errors), st)

/-! ### Interpreter (`src/interpreter.rs`) -/

/-- `Interpreter::interpret`: run the statements in order against the
mutable environment, stopping at the first failing statement; printed
lines are appended to `out`.  The returned environment and output are
the interpreter's state when the call returns (mutations before a
failure persist, as `self.environment` does in Rust). -/
def interpret : List Stmt → Environment → List String →
    Except String Unit × Environment × List String
  | [], env, out => (.ok (), env, out)
  | s :: rest, env, out =>
    match s with
    | .Print expression =>
      match expression.evaluate env with
      | .ok value => interpret rest env (out ++ [value.display])
      | .error msg => (.error msg, env, out)
    | .Expression expression =>
      match expression.evaluate env with
      | .ok _ => interpret rest env out
      | .error msg => (.error msg, env, out)
    | .Var name initialiser =>
      match initialiser.evaluate env with
      | .ok value => interpret rest (env.define name.lexeme value) out
      | .error msg => (.error msg, env, out)

/-- The expression a statement evaluates first (the body of each
`interpret` arm). -/
def stmtExpr : Stmt → Expr
  | .Expression expression => expression
  | .Print expression => expression
  | .Var _ initialiser => initialiser

/-- Scan, parse and evaluate a source that is a single expression
statement (the `scan → parse → evaluate` pipeline of `main.rs::run`,
specialised to one expression). -/
def runExprSource (s : String) : Except String LiteralValue :=
  match scanString s with
  | .ok toks =>
    match parse toks with
    | (.ok [Stmt.Expression e], _) => e.evaluate Environment.new
    | (.ok _, _) => .error "not a single expression statement"
    | (.error msg, _) => .error msg
  | .err msg => .error msg
  | _ => .error "scan failed"

/-! ### Auxiliary predicates for the safety statements -/

instance {ε α : Type} [DecidableEq ε] [DecidableEq α] : DecidableEq (Except ε α) :=
  fun x y =>
    match x, y with
    | .ok a, .ok b =>
      if h : a = b then isTrue (by rw [h]) else isFalse (by simp [h])
    | .error a, .error b =>
      if h : a = b then isTrue (by rw [h]) else isFalse (by simp [h])
    | .ok _, .error _ => isFalse (by simp)
    | .error _, .ok _ => isFalse (by simp)


/-- No two consecutive characters of the source are both `/` (so the
scanner never enters the line-comment loop). -/
def noConsecSlash : List Char → Bool
  | [] => true
  | [_] => true
  | a :: b :: rest => !(a = '/' ∧ b = '/') && noConsecSlash (b :: rest)

/-- A `scan_token`-style outcome is an ordinary `Ok`/`Err` (no panic,
no fuel exhaustion) whose cursor lies between `lo` and `len`. -/
def okOrErrLe (r : Lexer.TokRes) (lo len : Nat) : Prop :=
  match r with
  | .ok st => lo ≤ st.current ∧ st.current ≤ len
  | .err st _ => lo ≤ st.current ∧ st.current ≤ len
  | .panic => False
  | .fuelOut => False

/-- The token list a successful scan yields (empty on scan failure);
convenience for stating claims about parsing scanned sources. -/
def scannedTokens (s : String) : List Lexer.Token :=
  match scanString s with
  | .ok toks => toks
  | _ => []

/-! ## Theorems -/

/-- A cursor that is not at end (under the `Eof`-default out-of-bounds
model) is inside the token buffer. -/
theorem lt_of_not_isAtEndP (toks : List Lexer.Token) (cur : Nat)
    (h : isAtEndP toks cur = false) : cur < toks.length := by
  by_contra hc
  push_neg at hc
  have hn : toks[cur]? = none := List.getElem?_eq_none hc
  have hd : peekT toks cur = defaultToken := by
    simp [peekT, List.getD, hn]
  rw [isAtEndP, hd] at h
  simp [defaultToken] at h

/-- Postcondition of the `synchronise` loop: it stops at end of input
or having just consumed a `;` or a statement-starting keyword. -/
theorem syncLoop_post (toks : List Lexer.Token) :
    ∀ (fuel cur : Nat), toks.length - cur < fuel →
    isAtEndP toks (syncLoop toks fuel cur) = true ∨
    (previousT toks (syncLoop toks fuel cur)).token_type = .Semicolon ∨
    stmtStart (previousT toks (syncLoop toks fuel cur)).token_type = true := by
  intro fuel
  induction fuel with
  | zero => intro cur h; omega
  | succ f ih =>
    intro cur h
    rw [syncLoop]
    by_cases h1 : isAtEndP toks cur
    · simp [h1]
    · have hlt : cur < toks.length :=
        lt_of_not_isAtEndP _ _ (by simpa using h1)
      by_cases h2 : (previousT toks cur).token_type = .Semicolon
      · simp [h1, h2]
      · by_cases h3 : stmtStart (previousT toks cur).token_type
        · simp [h1, h2, h3]
        · simp only [h1, h2, h3, Bool.false_eq_true, if_false]
          exact ih (cur + 1) (by omega)

/-- Claim C2 (counterexample).  On the tokens of `"+ var x = 1;"` the
first error is reported at `+`; `synchronise` then advances, but it
tests `previous()` — the token already consumed — for the
statement-start keywords, so it stops only after consuming `var`
(cursor 2, at the identifier `x`), not positioned at the `var` token,
and without having consumed any `;`.  Parsing therefore resumes inside
the `var` declaration and reports a second error, where the claimed
behaviour (resume at the statement-start token) would parse
`var x = 1;` and report exactly one. -/
theorem c2_sync_overshoots_keyword :
    synchronise (scannedTokens "+ var x = 1;") ⟨0, []⟩ = ⟨2, []⟩ ∧
    ((scannedTokens "+ var x = 1;").getD 1 defaultToken).token_type = .Var ∧
    stmtStart .Var = true ∧
    ((scannedTokens "+ var x = 1;").getD 2 defaultToken).token_type = .Identifier ∧
    stmtStart .Identifier = false ∧
    ((scannedTokens "+ var x = 1;").getD 0 defaultToken).token_type ≠ .Semicolon ∧
    ((scannedTokens "+ var x = 1;").getD 1 defaultToken).token_type ≠ .Semicolon ∧
    parseErrors (scannedTokens "+ var x = 1;") =
      ["Expected expression on line 1", "Expected ';' after statement"] := by
  decide

/-- Claim C2 (amended).  On a declaration error the parser records the
message and synchronises by advancing until it has *consumed* a `;` or
a token that starts a new statement (class, fun, var, for, if, while,
print, return) — resuming at the token after the consumed one — or
until end of input; a source with two independent malformed statements
separated by `;` still yields exactly two syntax errors. -/
theorem c2_sync_boundary_and_two_errors :
    (∀ (toks : List Lexer.Token) (st : ParserState),
      isAtEndP toks (synchronise toks st).current = true ∨
      (previousT toks (synchronise toks st).current).token_type = .Semicolon ∨
      stmtStart (previousT toks (synchronise toks st).current).token_type = true) ∧
    parseErrors (scannedTokens "+; *;") =
      ["Expected expression on line 1", "Expected expression on line 1"] := by
  constructor
  · intro toks st
    exact syncLoop_post toks (toks.length + 1) _ (by omega)
  · decide

/-- Claim C5.  Evaluating `==`/`!=` succeeds for every pair of runtime
values: both reduce via the derived structural equality (numbers
compared by value); values of different kinds are simply unequal; no
operand combination produces an error. -/
theorem c5_equality_total (v w : LiteralValue) (env : Environment)
    (lex lex2 : String) (l l2 : Nat) :
    Expr.evaluate (.Binary (.Literal v) ⟨.EqualEqual, lex, none, l⟩ (.Literal w)) env
      = .ok (.from_bool (v.beq w)) ∧
    Expr.evaluate (.Binary (.Literal v) ⟨.BangEqual, lex2, none, l2⟩ (.Literal w)) env
      = .ok (.from_bool (Bool.not (v.beq w))) ∧
    (v.kindOf ≠ w.kindOf →
      Expr.evaluate (.Binary (.Literal v) ⟨.EqualEqual, lex, none, l⟩ (.Literal w)) env
        = .ok .False) := by
  cases v <;> cases w <;>
    first
      | exact ⟨rfl, rfl, fun h => absurd rfl h⟩
      | exact ⟨rfl, rfl, fun _ => rfl⟩

/-- Witness for C5 at a concrete input: `1 == "1"` is of mixed kinds
and evaluates to `False`, never an error. -/
theorem c5_equality_total_witness :
    (LiteralValue.Number ⟨1, 1⟩).kindOf ≠ (LiteralValue.Str "1").kindOf ∧
    Expr.evaluate (.Binary (.Literal (.Number ⟨1, 1⟩)) ⟨.EqualEqual, "==", none, 1⟩
      (.Literal (.Str "1"))) Environment.new = .ok .False :=
  ⟨by decide,
    (c5_equality_total (.Number ⟨1, 1⟩) (.Str "1") Environment.new "==" "!=" 1 1).2.2
      (by decide)⟩

/-- Claim C6.  Unary `!` always succeeds, returning the truthiness
negation: `False`/`Nil` → `True`; a number equal to `0` → `True`,
any other number → `False`; the empty string → `True`, a non-empty
string → `False`; `True` → `False`. -/
theorem c6_bang_truthiness (v : LiteralValue) (env : Environment)
    (lex : String) (l : Nat) :
    Expr.evaluate (.Unary ⟨.Bang, lex, none, l⟩ (.Literal v)) env = .ok v.not ∧
    ((v = .False ∨ v = .Nil) → v.not = .True) ∧
    (∀ q : Frac, v = .Number q →
      v.not = if q.beq Frac.zero then .True else .False) ∧
    (∀ s : String, v = .Str s → v.not = if s = "" then .True else .False) ∧
    (v = .True → v.not = .False) := by
  cases v <;>
    exact ⟨rfl, fun _ => by simp_all [LiteralValue.not],
      fun q hq => by simp_all [LiteralValue.not],
      fun s hs => by simp_all [LiteralValue.not],
      fun h => by simp_all [LiteralValue.not]⟩

/-- Witness for C6 at concrete inputs: `!nil` is `True` and `!0` is
`True`. -/
theorem c6_bang_truthiness_witness :
    Expr.evaluate (.Unary ⟨.Bang, "!", none, 1⟩ (.Literal .Nil)) Environment.new
      = .ok LiteralValue.Nil.not ∧
    LiteralValue.Nil.not = .True ∧
    (LiteralValue.Number ⟨0, 1⟩).not =
      if Frac.beq ⟨0, 1⟩ Frac.zero then .True else .False :=
  ⟨(c6_bang_truthiness .Nil Environment.new "!" 1).1,
   (c6_bang_truthiness .Nil Environment.new "!" 1).2.1 (Or.inr rfl),
   (c6_bang_truthiness (.Number ⟨0, 1⟩) Environment.new "!" 1).2.2.1 ⟨0, 1⟩ rfl⟩

/-- Claim C7.  `define` always succeeds and overwrites any prior
binding, after which `get` returns the newly stored value; `get` of a
name with no binding fails with an undeclared-variable error naming
the variable. -/
theorem c7_environment_contract (env : Environment) (name : String)
    (value : LiteralValue) :
    (env.define name value).get name = .ok value ∧
    (∀ other : LiteralValue, ((env.define name other).define name value).get name
      = .ok value) ∧
    (env name = none →
      env.get name = .error ("Variable " ++ name ++ " not declared yet!")) := by
  refine ⟨?_, fun other => ?_, fun h => ?_⟩
  · simp [Environment.define, Environment.get]
  · simp [Environment.define, Environment.get]
  · simp [Environment.get, h]

/-- Witness for C7 at a concrete input: redefinition of `x` wins, and
`y` is undeclared in the empty environment. -/
theorem c7_environment_contract_witness :
    ((Environment.new.define "x" (.Number ⟨1, 1⟩)).define "x"
      (.Number ⟨5, 1⟩)).get "x" = .ok (.Number ⟨5, 1⟩) ∧
    Environment.new "y" = none ∧
    Environment.new.get "y" = .error ("Variable " ++ "y" ++ " not declared yet!") :=
  ⟨(c7_environment_contract (Environment.new.define "x" (.Number ⟨1, 1⟩)) "x"
      (.Number ⟨5, 1⟩)).1,
   rfl,
   (c7_environment_contract Environment.new "y" (.Number ⟨5, 1⟩)).2.2 rfl⟩

/-- Sequencing of `interpret`: when a statement prefix runs to
completion, running the concatenation continues from the prefix's
environment and output. -/
theorem interpret_append (a b : List Stmt) :
    ∀ (env : Environment) (out : List String) (env' : Environment)
      (out' : List String),
    interpret a env out = (.ok (), env', out') →
    interpret (a ++ b) env out = interpret b env' out' := by
  induction a with
  | nil =>
    intro env out env' out' h
    rw [interpret] at h
    injection h with h1 h2
    injection h2 with h2 h3
    simp [h2, h3]
  | cons s rest ih =>
    intro env out env' out' h
    cases s with
    | Print expression =>
      rw [interpret] at h
      rw [List.cons_append, interpret]
      cases he : expression.evaluate env with
      | ok value => rw [he] at h; exact ih _ _ _ _ h
      | error msg => rw [he] at h; simp at h
    | Expression expression =>
      rw [interpret] at h
      rw [List.cons_append, interpret]
      cases he : expression.evaluate env with
      | ok value => rw [he] at h; exact ih _ _ _ _ h
      | error msg => rw [he] at h; simp at h
    | Var name initialiser =>
      rw [interpret] at h
      rw [List.cons_append, interpret]
      cases he : initialiser.evaluate env with
      | ok value => rw [he] at h; exact ih _ _ _ _ h
      | error msg => rw [he] at h; simp at h

/-- Claim C10.  `interpret` is not atomic on error: when every
statement of `pre` succeeds (ending with environment `env1` and
printed output `out1`) and the next statement's expression fails, the
whole run returns that first error while keeping `env1` — the bindings
already defined — and `out1` — the output already printed; the failing
statement's own effect and all later statements are skipped. -/
theorem c10_interpret_not_atomic (pre : List Stmt) (s : Stmt) (post : List Stmt)
    (env0 env1 : Environment) (out0 out1 : List String) (e : String)
    (hpre : interpret pre env0 out0 = (.ok (), env1, out1))
    (hfail : Expr.evaluate (stmtExpr s) env1 = .error e) :
    interpret (pre ++ s :: post) env0 out0 = (.error e, env1, out1) := by
  rw [interpret_append pre (s :: post) env0 out0 env1 out1 hpre]
  cases s with
  | Print expression => rw [interpret, stmtExpr] at *; rw [hfail]
  | Expression expression => rw [interpret, stmtExpr] at *; rw [hfail]
  | Var name initialiser => rw [interpret, stmtExpr] at *; rw [hfail]

/-- Witness for C10 at a concrete input: in
`var x = 5; print x; print y; print 1;` the failing `print y` leaves
`x ↦ 5` defined and `"5"` already printed, and its undeclared-variable
error is the one returned. -/
theorem c10_interpret_not_atomic_witness :
    interpret
      [.Var ⟨.Identifier, "x", none, 1⟩ (.Literal (.Number ⟨5, 1⟩)),
       .Print (.Variable ⟨.Identifier, "x", none, 1⟩)]
      Environment.new [] =
      (.ok (), Environment.new.define "x" (.Number ⟨5, 1⟩), ["5"]) ∧
    Expr.evaluate (stmtExpr (.Print (.Variable ⟨.Identifier, "y", none, 1⟩)))
      (Environment.new.define "x" (.Number ⟨5, 1⟩)) =
      .error "Variable y not declared yet!" ∧
    interpret
      ([.Var ⟨.Identifier, "x", none, 1⟩ (.Literal (.Number ⟨5, 1⟩)),
        .Print (.Variable ⟨.Identifier, "x", none, 1⟩)] ++
       .Print (.Variable ⟨.Identifier, "y", none, 1⟩) ::
       [.Print (.Literal (.Number ⟨1, 1⟩))])
      Environment.new [] =
      (.error "Variable y not declared yet!",
       Environment.new.define "x" (.Number ⟨5, 1⟩), ["5"]) :=
  ⟨rfl, rfl,
   c10_interpret_not_atomic _ _ _ _ _ _ _ _ rfl rfl⟩

/-- Claim C1.  The claim states that `//` begins a line comment that is
discarded through the next newline, with no token emitted for the
comment text.  The code disagrees: the loop condition
`peek == '\n' || !is_at_end()` breaks immediately whenever the scanner
is not at end of input, a `Slash` token is emitted for the `//` lexeme,
and the comment text is then tokenised normally — on `"// hi"` the
scanner returns a `Slash` token and an `Identifier` token for `hi`
instead of only `Eof`.  When `//` is the end of the input the loop
instead calls `advance` at the end of the buffer, an out-of-bounds
read. -/
theorem c1_line_comment_not_discarded :
    scanString "// hi" = .ok
      [⟨.Slash, "//", none, 1⟩, ⟨.Identifier, "hi", none, 1⟩, ⟨.Eof, "", none, 1⟩] ∧
    scanString "//" = .panic := by
  decide

/-- Claim C3 (counterexample).  The number lexeme `16777217` parses
exactly as a 64-bit double (its scanned literal payload is
`16777217`), but `LiteralValue::from_token` narrows it with `as f32`,
so the value carried into the `Literal` node — and the value the
pipeline evaluates to — is `16777216`, not the claimed unchanged
double. -/
theorem c3_number_not_carried_unchanged :
    scanString "16777217;" = .ok
      [⟨.Number, "16777217", some (.FVal ⟨16777217, 1⟩), 1⟩,
       ⟨.Semicolon, ";", none, 1⟩, ⟨.Eof, "", none, 1⟩] ∧
    LiteralValue.from_token ⟨.Number, "16777217", some (.FVal ⟨16777217, 1⟩), 1⟩ =
      .ok (.Number ⟨16777216, 1⟩) ∧
    runExprSource "16777217;" = .ok (.Number ⟨16777216, 1⟩) ∧
    Frac.mk 16777216 1 ≠ Frac.mk 16777217 1 := by
  refine ⟨by decide, by decide, by decide, by decide⟩

/-- Claim C3 (amended).  Runtime numbers are 32-bit floats: the lexeme
is parsed as a 64-bit double by the scanner and then narrowed to `f32`
by `from_token` on the way into the `Literal` node; for expressions
whose values are exactly representable the pipeline still yields the
numerically correct result (`"1 + 2 * 3"` → `7`, `"(1 + 2) * 3"` →
`9`). -/
theorem c3_numbers_are_f32 :
    runExprSource "1 + 2 * 3;" = .ok (.Number ⟨7, 1⟩) ∧
    runExprSource "(1 + 2) * 3;" = .ok (.Number ⟨9, 1⟩) ∧
    ∀ (lex : String) (l : Nat) (q : Frac),
      LiteralValue.from_token ⟨.Number, lex, some (.FVal q), l⟩ =
        .ok (.Number (roundF32 q)) := by
  refine ⟨by decide, by decide, fun _ _ _ => rfl⟩

/-- Claim C4 (counterexample).  On the source `"a⏎b` the string
literal starts on line 1, but the scanner counts the embedded newline
before reporting, so the single lexical error names line 2 — the line
reached at end of input, not the line on which the literal started. -/
theorem c4_unterminated_line_is_end_line :
    scanString "\"a\nb" = .err "unterminated string lol :/ on line 2\n" ∧
    Lexer.string_literal "\"a\nb".toList ⟨[], 0, 1, 1⟩ =
      .err ⟨[], 0, 4, 2⟩ "unterminated string lol :/ on line 2" := by
  decide

/-- Behaviour of the string-literal loop when no closing quote
remains: it consumes the rest of the source, adding one to the line
counter for every embedded newline, and returns without panicking. -/
theorem stringLoop_unterminated (src : List Char) :
    ∀ (fuel : Nat) (st : Lexer.ScanState), st.current ≤ src.length →
    src.length - st.current < fuel →
    '"' ∉ src.drop st.current →
    Lexer.stringLoop src fuel st =
      .ok ⟨st.tokens, st.start, src.length,
           st.line + (src.drop st.current).count '\n'⟩ := by
  intro fuel
  induction fuel with
  | zero => intro st h1 h2 _; omega
  | succ f ih =>
    rintro ⟨t, s, c, l⟩ h1 h2 h3
    simp only at h1 h2 h3
    rw [Lexer.stringLoop]
    by_cases hc : c < src.length
    · have hdrop : src.drop c = src[c] :: src.drop (c + 1) :=
        List.drop_eq_getElem_cons hc
      have hpeek : Lexer.peek src c = src[c] := by
        simp [Lexer.peek, List.getD, List.getElem?_eq_getElem hc]
      have hne : src[c] ≠ '"' := by
        intro hq
        exact h3 (by rw [hdrop, hq]; exact List.mem_cons_self _ _)
      have hnotend : Lexer.isAtEnd src c = false := by
        simp [Lexer.isAtEnd]; omega
      have hrest : '"' ∉ src.drop (c + 1) := by
        intro hq
        exact h3 (by rw [hdrop]; exact List.mem_cons_of_mem _ hq)
      have hsome : src.get? c = some src[c] := by
        simp [List.get?_eq_getElem?, List.getElem?_eq_getElem hc]
      have hcount : (src.drop c).count '\n' =
          (src.drop (c + 1)).count '\n' + if src[c] = '\n' then 1 else 0 := by
        rw [hdrop, List.count_cons]
        simp [beq_iff_eq]
      rw [if_neg (by rw [hpeek, hnotend]; simp [hne])]
      simp only [hpeek, hsome]
      by_cases hnl : src[c] = '\n'
      · rw [if_pos hnl]
        rw [ih ⟨t, s, c + 1, l + 1⟩ (by show c + 1 ≤ src.length; omega)
          (by show src.length - (c + 1) < f; omega) hrest]
        simp only [Lexer.TokRes.ok.injEq, Lexer.ScanState.mk.injEq,
          true_and]
        rw [hcount, if_pos hnl]
        omega
      · rw [if_neg hnl]
        rw [ih ⟨t, s, c + 1, l⟩ (by show c + 1 ≤ src.length; omega)
          (by show src.length - (c + 1) < f; omega) hrest]
        simp only [Lexer.TokRes.ok.injEq, Lexer.ScanState.mk.injEq,
          true_and]
        rw [hcount, if_neg hnl]
        omega
    · have hcur : c = src.length := by omega
      have hend : Lexer.isAtEnd src c = true := by
        simp [Lexer.isAtEnd]; omega
      rw [if_pos (Or.inr hend)]
      simp only [Lexer.TokRes.ok.injEq, Lexer.ScanState.mk.injEq, true_and,
        hcur, List.drop_length, List.count_nil]
      omega

/-- Claim C4 (amended).  A string literal that reaches end of input
before its closing quote yields exactly one lexical error and no
token, without panicking; the error names the line reached at end of
input — the line the literal started on plus the number of embedded
newlines — rather than the starting line itself. -/
theorem c4_unterminated_reports_end_line (src : List Char) (st : Lexer.ScanState)
    (h1 : st.current ≤ src.length) (h2 : '"' ∉ src.drop st.current) :
    Lexer.string_literal src st =
      .err ⟨st.tokens, st.start, src.length,
            st.line + (src.drop st.current).count '\n'⟩
        ("unterminated string lol :/ on line " ++
          toString (st.line + (src.drop st.current).count '\n')) := by
  rw [Lexer.string_literal,
    stringLoop_unterminated src (src.length + 1) st h1 (by omega) h2]
  have hend : Lexer.isAtEnd src src.length = true := by simp [Lexer.isAtEnd]
  simp [hend]

/-- Witness for C4 (amended) at a concrete input: the unterminated
literal `"ab` (opening quote consumed, scanner on line 1) produces the
single error naming line 1 (no embedded newline). -/
theorem c4_unterminated_reports_end_line_witness :
    (1 ≤ "\"ab".toList.length) ∧ ('"' ∉ "\"ab".toList.drop 1) ∧
    Lexer.string_literal "\"ab".toList ⟨[], 0, 1, 1⟩ =
      .err ⟨[], 0, "\"ab".toList.length, 1 + ("\"ab".toList.drop 1).count '\n'⟩
        ("unterminated string lol :/ on line " ++
          toString (1 + ("\"ab".toList.drop 1).count '\n')) :=
  ⟨by decide, by decide,
   c4_unterminated_reports_end_line "\"ab".toList ⟨[], 0, 1, 1⟩ (by decide) (by decide)⟩

/-- Claim C8.  The spec says scanning and parsing perform no output,
but `Parser::expression_statement` contains a `println!` that writes
every parsed expression statement's expression to standard output: on
the tokens of `"1 + 2;"` the parser succeeds yet prints `(+ 1 2)`. -/
theorem c8_parser_prints_expression_statements :
    parse
      [⟨.Number, "1", some (.FVal ⟨1, 1⟩), 1⟩, ⟨.Plus, "+", none, 1⟩,
       ⟨.Number, "2", some (.FVal ⟨2, 1⟩), 1⟩, ⟨.Semicolon, ";", none, 1⟩,
       ⟨.Eof, "", none, 1⟩] =
      (.ok [.Expression (.Binary (.Literal (.Number ⟨1, 1⟩)) ⟨.Plus, "+", none, 1⟩
        (.Literal (.Number ⟨2, 1⟩)))], ⟨4, ["(+ 1 2)"]⟩) ∧
    ["(+ 1 2)"] ≠ ([] : List String) := by
  refine ⟨by decide, by decide⟩

/-- Claim C9 (counterexample).  `scan_tokens` is not total: on the
input `//` the line-comment loop reaches end of input without breaking
(its condition is `peek == '\n' || !is_at_end()`) and `advance` reads
the source buffer at index `len`, out of bounds. -/
theorem c9_scan_panics_on_trailing_comment :
    scanString "//" = .panic := by
  decide

/-! ### Totality of the scanner away from `//` (claim C9, amended) -/

theorem peek_oob (src : List Char) (c : Nat) (h : src.length ≤ c) :
    Lexer.peek src c = Char.ofNat 0 := by
  simp [Lexer.peek, List.getD, List.getElem?_eq_none h]

theorem peek_lt (src : List Char) (c : Nat) (h : c < src.length) :
    Lexer.peek src c = src[c] := by
  simp [Lexer.peek, List.getD, List.getElem?_eq_getElem h]

theorem get?_lt (src : List Char) (c : Nat) (h : c < src.length) :
    src.get? c = some src[c] := by
  simp [List.get?_eq_getElem?, List.getElem?_eq_getElem h]

theorem isAtEnd_false (src : List Char) (c : Nat) :
    Lexer.isAtEnd src c = false ↔ c < src.length := by
  simp [Lexer.isAtEnd]

/-- In a source without two consecutive slashes, no slash is followed
by another slash. -/
theorem noConsecSlash_get (src : List Char) :
    ∀ i : Nat, noConsecSlash src = true → src.get? i = some '/' →
      src.get? (i + 1) ≠ some '/' := by
  induction src with
  | nil => intro i _ hi; simp at hi
  | cons a rest ih =>
    intro i hn hi
    cases rest with
    | nil =>
      cases i with
      | zero => simp
      | succ j => simp at hi
    | cons b rest2 =>
      rw [noConsecSlash] at hn
      simp only [Bool.and_eq_true, Bool.not_eq_true'] at hn
      cases i with
      | zero =>
        simp only [List.get?] at hi ⊢
        injection hi with hi
        intro hb
        injection hb with hb
        rw [hi, hb] at hn
        simp at hn
      | succ j =>
        simp only [List.get?] at hi ⊢
        exact ih j hn.2 hi

/-- The `matchChar` cursor only moves forward, and stays in bounds. -/
theorem matchChar_le (src : List Char) (st : Lexer.ScanState) (ch : Char)
    (h : st.current ≤ src.length) :
    st.current ≤ (Lexer.matchChar src st ch).2.current ∧
    (Lexer.matchChar src st ch).2.current ≤ src.length := by
  rw [Lexer.matchChar]
  split
  · exact ⟨le_refl _, h⟩
  · rename_i hcond
    push_neg at hcond
    have : st.current < src.length := by
      have := hcond.1
      simp [Lexer.isAtEnd] at this
      omega
    exact ⟨Nat.le_succ _, by simpa using this⟩

/-- The string-literal loop terminates in bounds (general form). -/
theorem stringLoop_ok (src : List Char) :
    ∀ (fuel : Nat) (st : Lexer.ScanState), st.current ≤ src.length →
    src.length - st.current < fuel →
    ∃ st', Lexer.stringLoop src fuel st = .ok st' ∧
      st.current ≤ st'.current ∧ st'.current ≤ src.length := by
  intro fuel
  induction fuel with
  | zero => intro st h1 h2; omega
  | succ f ih =>
    intro st h1 h2
    rw [Lexer.stringLoop]
    by_cases hcond : (Lexer.peek src st.current = '"' ∨ Lexer.isAtEnd src st.current)
    · rw [if_pos hcond]
      exact ⟨st, rfl, le_refl _, h1⟩
    · rw [if_neg hcond]
      push_neg at hcond
      have hlt : st.current < src.length := by
        have := hcond.2
        simp [Lexer.isAtEnd] at this
        omega
      rw [get?_lt src st.current hlt]
      by_cases hnl : Lexer.peek src st.current = '\n'
      · rw [if_pos hnl]
        obtain ⟨st', heq, hle1, hle2⟩ :=
          ih ⟨st.tokens, st.start, st.current + 1, st.line + 1⟩
            (by show st.current + 1 ≤ src.length; omega)
            (by show src.length - (st.current + 1) < f; omega)
        refine ⟨st', ?_, by simp at hle1 ⊢; omega, hle2⟩
        exact heq
      · rw [if_neg hnl]
        obtain ⟨st', heq, hle1, hle2⟩ :=
          ih ⟨st.tokens, st.start, st.current + 1, st.line⟩
            (by show st.current + 1 ≤ src.length; omega)
            (by show src.length - (st.current + 1) < f; omega)
        refine ⟨st', ?_, by simp at hle1 ⊢; omega, hle2⟩
        exact heq

/-- The digit loop terminates in bounds. -/
theorem digitLoop_ok (src : List Char) :
    ∀ (fuel : Nat) (st : Lexer.ScanState), st.current ≤ src.length →
    src.length - st.current < fuel →
    ∃ st', Lexer.digitLoop src fuel st = .ok st' ∧
      st.current ≤ st'.current ∧ st'.current ≤ src.length := by
  intro fuel
  induction fuel with
  | zero => intro st h1 h2; omega
  | succ f ih =>
    intro st h1 h2
    rw [Lexer.digitLoop]
    by_cases hg : (Lexer.peek src st.current).isDigit
    · rw [if_pos hg]
      have hlt : st.current < src.length := by
        by_contra hge
        push_neg at hge
        rw [peek_oob src st.current hge] at hg
        simp at hg
      rw [get?_lt src st.current hlt]
      obtain ⟨st', heq, hle1, hle2⟩ :=
        ih ⟨st.tokens, st.start, st.current + 1, st.line⟩
          (by show st.current + 1 ≤ src.length; omega)
          (by show src.length - (st.current + 1) < f; omega)
      refine ⟨st', heq, by simp at hle1 ⊢; omega, hle2⟩
    · rw [if_neg hg]
      exact ⟨st, rfl, le_refl _, h1⟩

/-- The identifier loop terminates in bounds. -/
theorem identLoop_ok (src : List Char) :
    ∀ (fuel : Nat) (st : Lexer.ScanState), st.current ≤ src.length →
    src.length - st.current < fuel →
    ∃ st', Lexer.identLoop src fuel st = .ok st' ∧
      st.current ≤ st'.current ∧ st'.current ≤ src.length := by
  intro fuel
  induction fuel with
  | zero => intro st h1 h2; omega
  | succ f ih =>
    intro st h1 h2
    rw [Lexer.identLoop]
    by_cases hg : Lexer.is_alphanumeric (Lexer.peek src st.current)
    · rw [if_pos hg]
      have hlt : st.current < src.length := by
        by_contra hge
        push_neg at hge
        rw [peek_oob src st.current hge] at hg
        simp [Lexer.is_alphanumeric, Lexer.is_alpha, Char.ofNat] at hg
      rw [get?_lt src st.current hlt]
      obtain ⟨st', heq, hle1, hle2⟩ :=
        ih ⟨st.tokens, st.start, st.current + 1, st.line⟩
          (by show st.current + 1 ≤ src.length; omega)
          (by show src.length - (st.current + 1) < f; omega)
      refine ⟨st', heq, by simp at hle1 ⊢; omega, hle2⟩
    · rw [if_neg hg]
      exact ⟨st, rfl, le_refl _, h1⟩

/-- `string_literal` never panics and moves the cursor forward in
bounds. -/
theorem string_literal_ok (src : List Char) (st : Lexer.ScanState)
    (h1 : st.current ≤ src.length) :
    okOrErrLe (Lexer.string_literal src st) st.current src.length := by
  obtain ⟨st1, heq, hle1, hle2⟩ :=
    stringLoop_ok src (src.length + 1) st h1 (by omega)
  rw [Lexer.string_literal, heq]
  dsimp only
  by_cases hend : Lexer.isAtEnd src st1.current
  · rw [if_pos hend]
    exact ⟨hle1, hle2⟩
  · rw [if_neg hend]
    have hlt : st1.current < src.length := by
      have := (isAtEnd_false src st1.current).1 (by simpa using hend)
      omega
    rw [get?_lt src st1.current hlt]
    exact ⟨by simp [Lexer.addToken]; omega, by simp [Lexer.addToken]; omega⟩

/-- `number` never panics and moves the cursor forward in bounds. -/
theorem number_ok (src : List Char) (st : Lexer.ScanState)
    (h1 : st.current ≤ src.length) :
    okOrErrLe (Lexer.number src st) st.current src.length := by
  obtain ⟨st1, heq, hle1, hle2⟩ :=
    digitLoop_ok src (src.length + 1) st h1 (by omega)
  rw [Lexer.number, heq]
  dsimp only
  by_cases hdot : (Lexer.peek src st1.current = '.' ∧
      (Lexer.peekNext src st1.current).isDigit)
  · rw [if_pos hdot]
    have hlt : st1.current < src.length := by
      by_contra hge
      push_neg at hge
      rw [peek_oob src st1.current hge] at hdot
      have := hdot.1
      simp [Char.ofNat] at this
    rw [get?_lt src st1.current hlt]
    obtain ⟨st2, heq2, hle3, hle4⟩ :=
      digitLoop_ok src (src.length + 1) ⟨st1.tokens, st1.start, st1.current + 1, st1.line⟩
        (by show st1.current + 1 ≤ src.length; omega)
        (by show src.length - (st1.current + 1) < src.length + 1; omega)
    rw [heq2]
    dsimp only
    simp only at hle3
    cases hp : Lexer.parseLexemeF64 ((src.drop st2.start).take (st2.current - st2.start)) with
    | some v =>
      exact ⟨by simp [Lexer.addToken]; omega, by simp [Lexer.addToken]; omega⟩
    | none =>
      exact ⟨by omega, by omega⟩
  · rw [if_neg hdot]
    cases hp : Lexer.parseLexemeF64 ((src.drop st1.start).take (st1.current - st1.start)) with
    | some v =>
      exact ⟨by simp [Lexer.addToken]; omega, by simp [Lexer.addToken]; omega⟩
    | none =>
      exact ⟨by omega, by omega⟩

/-- `identifier` never panics and moves the cursor forward in bounds. -/
theorem identifier_ok (src : List Char) (st : Lexer.ScanState)
    (h1 : st.current ≤ src.length) :
    okOrErrLe (Lexer.identifier src st) st.current src.length := by
  obtain ⟨st1, heq, hle1, hle2⟩ :=
    identLoop_ok src (src.length + 1) st h1 (by omega)
  rw [Lexer.identifier, heq]
  dsimp only
  exact ⟨by simp [Lexer.addToken]; omega, by simp [Lexer.addToken]; omega⟩

/-- In a source with no two consecutive slashes, one `scan_token` call
from inside the buffer returns `Ok`/`Err` (no out-of-bounds read) and
strictly advances the cursor, staying in bounds. -/
theorem scan_token_ok (src : List Char) (H : noConsecSlash src = true)
    (st : Lexer.ScanState) (h : st.current < src.length) :
    okOrErrLe (Lexer.scan_token src st) (st.current + 1) src.length := by
  have hb1 : st.current + 1 ≤ src.length := by omega
  rw [Lexer.scan_token, get?_lt src st.current h]
  dsimp only
  by_cases h1 : src[st.current] = '('
  · rw [if_pos h1]; exact ⟨by simp [Lexer.addToken], by simp [Lexer.addToken]; omega⟩
  rw [if_neg h1]
  by_cases h2 : src[st.current] = ')'
  · rw [if_pos h2]; exact ⟨by simp [Lexer.addToken], by simp [Lexer.addToken]; omega⟩
  rw [if_neg h2]
  by_cases h3 : src[st.current] = '{'
  · rw [if_pos h3]; exact ⟨by simp [Lexer.addToken], by simp [Lexer.addToken]; omega⟩
  rw [if_neg h3]
  by_cases h4 : src[st.current] = '}'
  · rw [if_pos h4]; exact ⟨by simp [Lexer.addToken], by simp [Lexer.addToken]; omega⟩
  rw [if_neg h4]
  by_cases h5 : src[st.current] = ','
  · rw [if_pos h5]; exact ⟨by simp [Lexer.addToken], by simp [Lexer.addToken]; omega⟩
  rw [if_neg h5]
  by_cases h6 : src[st.current] = '.'
  · rw [if_pos h6]; exact ⟨by simp [Lexer.addToken], by simp [Lexer.addToken]; omega⟩
  rw [if_neg h6]
  by_cases h7 : src[st.current] = '-'
  · rw [if_pos h7]; exact ⟨by simp [Lexer.addToken], by simp [Lexer.addToken]; omega⟩
  rw [if_neg h7]
  by_cases h8 : src[st.current] = '+'
  · rw [if_pos h8]; exact ⟨by simp [Lexer.addToken], by simp [Lexer.addToken]; omega⟩
  rw [if_neg h8]
  by_cases h9 : src[st.current] = ';'
  · rw [if_pos h9]; exact ⟨by simp [Lexer.addToken], by simp [Lexer.addToken]; omega⟩
  rw [if_neg h9]
  by_cases h10 : src[st.current] = '*'
  · rw [if_pos h10]; exact ⟨by simp [Lexer.addToken], by simp [Lexer.addToken]; omega⟩
  rw [if_neg h10]
  by_cases h11 : src[st.current] = '='
  · rw [if_pos h11]
    rcases hmc : Lexer.matchChar src ⟨st.tokens, st.start, st.current + 1, st.line⟩ '='
      with ⟨m, st2⟩
    have hb := matchChar_le src ⟨st.tokens, st.start, st.current + 1, st.line⟩ '=' hb1
    rw [hmc] at hb
    dsimp only at hb
    exact ⟨by simp [Lexer.addToken]; omega, by simp [Lexer.addToken]; omega⟩
  rw [if_neg h11]
  by_cases h12 : src[st.current] = '!'
  · rw [if_pos h12]
    rcases hmc : Lexer.matchChar src ⟨st.tokens, st.start, st.current + 1, st.line⟩ '='
      with ⟨m, st2⟩
    have hb := matchChar_le src ⟨st.tokens, st.start, st.current + 1, st.line⟩ '=' hb1
    rw [hmc] at hb
    dsimp only at hb
    exact ⟨by simp [Lexer.addToken]; omega, by simp [Lexer.addToken]; omega⟩
  rw [if_neg h12]
  by_cases h13 : src[st.current] = '<'
  · rw [if_pos h13]
    rcases hmc : Lexer.matchChar src ⟨st.tokens, st.start, st.current + 1, st.line⟩ '='
      with ⟨m, st2⟩
    have hb := matchChar_le src ⟨st.tokens, st.start, st.current + 1, st.line⟩ '=' hb1
    rw [hmc] at hb
    dsimp only at hb
    exact ⟨by simp [Lexer.addToken]; omega, by simp [Lexer.addToken]; omega⟩
  rw [if_neg h13]
  by_cases h14 : src[st.current] = '>'
  · rw [if_pos h14]
    rcases hmc : Lexer.matchChar src ⟨st.tokens, st.start, st.current + 1, st.line⟩ '='
      with ⟨m, st2⟩
    have hb := matchChar_le src ⟨st.tokens, st.start, st.current + 1, st.line⟩ '=' hb1
    rw [hmc] at hb
    dsimp only at hb
    exact ⟨by simp [Lexer.addToken]; omega, by simp [Lexer.addToken]; omega⟩
  rw [if_neg h14]
  by_cases h15 : src[st.current] = '/'
  · rw [if_pos h15]
    have hnext : src.get? (st.current + 1) ≠ some '/' :=
      noConsecSlash_get src st.current H (by rw [get?_lt src st.current h, h15])
    have hmc : Lexer.matchChar src ⟨st.tokens, st.start, st.current + 1, st.line⟩ '/' =
        (false, ⟨st.tokens, st.start, st.current + 1, st.line⟩) := by
      rw [Lexer.matchChar]
      rw [if_pos ?hcond]
      case hcond =>
        by_cases hin : st.current + 1 < src.length
        · right
          dsimp only
          rw [List.getD_eq_getElem src (Char.ofNat 0) hin]
          intro hsl
          exact hnext (by rw [get?_lt src _ hin, hsl])
        · left
          dsimp only
          simp [Lexer.isAtEnd]
          omega
    rw [hmc]
    dsimp only
    rw [if_neg (by simp)]
    exact ⟨by simp [Lexer.addToken], by simp [Lexer.addToken]; omega⟩
  rw [if_neg h15]
  by_cases h16 : (src[st.current] = ' ' ∨ src[st.current] = '\r' ∨ src[st.current] = '\t')
  · rw [if_pos h16]
    exact ⟨by simp, by simp; omega⟩
  rw [if_neg h16]
  by_cases h17 : src[st.current] = '\n'
  · rw [if_pos h17]
    exact ⟨by simp, by simp; omega⟩
  rw [if_neg h17]
  by_cases h18 : src[st.current] = '"'
  · rw [if_pos h18]
    exact string_literal_ok src ⟨st.tokens, st.start, st.current + 1, st.line⟩ hb1
  rw [if_neg h18]
  by_cases h19 : src[st.current].isDigit
  · rw [if_pos h19]
    exact number_ok src ⟨st.tokens, st.start, st.current + 1, st.line⟩ hb1
  rw [if_neg h19]
  by_cases h20 : Lexer.is_alpha src[st.current]
  · rw [if_pos h20]
    exact identifier_ok src ⟨st.tokens, st.start, st.current + 1, st.line⟩ hb1
  rw [if_neg h20]
  exact ⟨by simp, by simp; omega⟩

/-- In a source with no two consecutive slashes, the scanning loop
always completes (no panic, fuel never exhausted for the supplied
bound). -/
theorem scanLoop_ok (src : List Char) (H : noConsecSlash src = true) :
    ∀ (fuel : Nat) (st : Lexer.ScanState) (errors : List String),
    st.current ≤ src.length → src.length - st.current < fuel →
    ∃ st' errors', Lexer.scanLoop src fuel st errors = .done st' errors' := by
  intro fuel
  induction fuel with
  | zero => intro st errors h1 h2; omega
  | succ f ih =>
    intro st errors h1 h2
    rw [Lexer.scanLoop]
    by_cases hend : Lexer.isAtEnd src st.current
    · rw [if_pos hend]
      exact ⟨st, errors, rfl⟩
    · rw [if_neg hend]
      have hlt : st.current < src.length := by
        have := (isAtEnd_false src st.current).1 (by simpa using hend)
        omega
      have hspec := scan_token_ok src H ⟨st.tokens, st.current, st.current, st.line⟩
        (by show st.current < src.length; exact hlt)
      cases hr : Lexer.scan_token src ⟨st.tokens, st.current, st.current, st.line⟩ with
      | ok st2 =>
        rw [hr] at hspec
        obtain ⟨hsp1, hsp2⟩ := hspec
        dsimp only
        rw [hr]
        exact ih st2 errors hsp2 (by simp at hsp1; omega)
      | err st2 msg =>
        rw [hr] at hspec
        obtain ⟨hsp1, hsp2⟩ := hspec
        dsimp only
        rw [hr]
        exact ih st2 (errors ++ [msg]) hsp2 (by simp at hsp1; omega)
      | panic => rw [hr] at hspec; exact absurd hspec (by simp [okOrErrLe])
      | fuelOut => rw [hr] at hspec; exact absurd hspec (by simp [okOrErrLe])

/-- Claim C9 (amended).  `scan_tokens` is total — every source-buffer
read is in bounds and the call returns `Ok` or `Err` — for every input
in which no two consecutive characters are both `/`; the single
out-of-bounds read is the line-comment loop's `advance` when a `//`
is consumed at the very end of the input (e.g. the source `//`). -/
theorem c9_scan_total_without_double_slash (src : List Char)
    (H : noConsecSlash src = true) :
    (∃ toks, Lexer.scan_tokens src = .ok toks) ∨
    (∃ msg, Lexer.scan_tokens src = .err msg) := by
  obtain ⟨st', errors', heq⟩ :=
    scanLoop_ok src H (src.length + 1) ⟨[], 0, 0, 1⟩ []
      (by show (0 : Nat) ≤ src.length; omega)
      (by show src.length - 0 < src.length + 1; omega)
  rw [Lexer.scan_tokens, heq]
  dsimp only
  by_cases hz : errors' = []
  · rw [if_pos hz]
    exact Or.inl ⟨_, rfl⟩
  · rw [if_neg hz]
    exact Or.inr ⟨_, rfl⟩

/-- Witness for C9 (amended) at a concrete input: `1 + 2` has no two
consecutive slashes and its scan returns `Ok` or `Err` (here `Ok`). -/
theorem c9_scan_total_without_double_slash_witness :
    noConsecSlash "1 + 2".toList = true ∧
    ((∃ toks, Lexer.scan_tokens "1 + 2".toList = .ok toks) ∨
     (∃ msg, Lexer.scan_tokens "1 + 2".toList = .err msg)) :=
  ⟨by decide, c9_scan_total_without_double_slash "1 + 2".toList (by decide)⟩

end Kadom









